import Mathlib

/-!
Verification of the AiManager document store core
(src/core/file-operations.js) against its natural-language specification.

The JavaScript module is shallowly embedded: the shared filesystem state for
one document path is a record (lock sidecar file, target file, temp file,
backup directory), and the per-process state is a record (the in-process
map of held locks, the uuid generator, the list of timer callbacks that
setTimeout has scheduled).  Each method of the FileOperations class becomes
a pure Lean function threading this state; Date.now() becomes an explicit
argument.  JSON values are modelled with integer numerics (the claims only
exercise integer payloads); JSON.parse is a strict recursive-descent parser
and JSON.stringify(v, null, 2) a two-space pretty printer.
-/

namespace AiMgr

/-- Json value as produced by JSON.parse, with numbers restricted to
integers (sufficient for every payload the specification exercises). -/
inductive Json where
  | obj (entries : List (String × Json))
  | arr (items : List Json)
  | str (text : String)
  | num (value : Int)
  | bool (flag : Bool)
  | null
deriving Repr, Inhabited

/-- JavaScript truthiness of a parsed JSON value, as tested by the
if (recovered) and if (backupData) guards in safeJSONRead. -/
def jsTruthy : Json → Bool
  | .null => false
  | .bool b => b
  | .num n => decide (n ≠ 0)
  | .str s => decide (s ≠ "")
  | .arr _ => true
  | .obj _ => true

/-- Whitespace characters skipped by JSON.parse. -/
def isWsChar (c : Char) : Bool :=
  c = '\n' || c = '\r' || c = ' ' || c = '\t'

/-- Drop leading JSON whitespace. -/
def skipWs (cs : List Char) : List Char :=
  match cs with
  | c :: rest => if isWsChar c then skipWs rest else cs
  | [] => []

/-- Translate a JSON string escape character. -/
def unescapeChar (e : Char) : Option Char :=
  match e with
  | 'n' => some '\n'
  | 't' => some '\t'
  | 'r' => some '\r'
  | 'b' => some '\x08'
  | 'f' => some '\x0c'
  | '"' => some '"'
  | '/' => some '/'
  | '\\' => some '\\'
  | _ => none

/-- Parse the body of a JSON string after the opening quote; the
accumulator holds the decoded characters in reverse.  Unicode escapes are
outside the modelled fragment. -/
def parseStringBody : List Char → List Char → Option (String × List Char)
  | [], _ => none
  | '"' :: rest, acc => some (String.mk acc.reverse, rest)
  | '\\' :: e :: rest, acc =>
    match unescapeChar e with
    | some c => parseStringBody rest (c :: acc)
    | none => none
  | c :: rest, acc =>
    if c = '\\' then none else parseStringBody rest (c :: acc)

/-- Consume a run of decimal digits, returning the accumulated value. -/
def parseDigits : Nat → List Char → Nat × List Char
  | acc, c :: cs =>
    if c.isDigit then parseDigits (acc * 10 + (c.toNat - '0'.toNat)) cs
    else (acc, c :: cs)
  | acc, [] => (acc, [])

mutual

/-- Recursive-descent JSON value parser; the fuel argument strictly
decreases on every nested call and is chosen large enough by jsonParse. -/
def parseVal : Nat → List Char → Option (Json × List Char)
  | 0, _ => none
  | fuel + 1, cs =>
    match skipWs cs with
    | 'n' :: 'u' :: 'l' :: 'l' :: rest => some (.null, rest)
    | 't' :: 'r' :: 'u' :: 'e' :: rest => some (.bool true, rest)
    | 'f' :: 'a' :: 'l' :: 's' :: 'e' :: rest => some (.bool false, rest)
    | '"' :: rest =>
      match parseStringBody rest [] with
      | some (s, r) => some (.str s, r)
      | none => none
    | '[' :: rest =>
      (match skipWs rest with
       | ']' :: r => some (.arr [], r)
       | other => parseElems fuel other [])
    | '\x7b' :: rest =>
      (match skipWs rest with
       | '\x7d' :: r => some (.obj [], r)
       | other => parseMembers fuel other [])
    | '-' :: c :: rest =>
      if c.isDigit then
        match parseDigits (c.toNat - '0'.toNat) rest with
        | (n, r) => some (.num (-(Int.ofNat n)), r)
      else none
    | c :: rest =>
      if c.isDigit then
        match parseDigits (c.toNat - '0'.toNat) rest with
        | (n, r) => some (.num (Int.ofNat n), r)
      else none
    | [] => none

/-- Parse the remaining comma-separated elements of a non-empty array. -/
def parseElems : Nat → List Char → List Json → Option (Json × List Char)
  | 0, _, _ => none
  | fuel + 1, cs, acc =>
    match parseVal fuel cs with
    | none => none
    | some (v, r) =>
      match skipWs r with
      | ',' :: r2 => parseElems fuel r2 (acc ++ [v])
      | ']' :: r2 => some (.arr (acc ++ [v]), r2)
      | _ => none

/-- Parse the remaining key/value members of a non-empty object. -/
def parseMembers : Nat → List Char → List (String × Json) → Option (Json × List Char)
  | 0, _, _ => none
  | fuel + 1, cs, acc =>
    match cs with
    | '"' :: rest =>
      (match parseStringBody rest [] with
       | none => none
       | some (k, r1) =>
         match skipWs r1 with
         | ':' :: r2 =>
           (match parseVal fuel r2 with
            | none => none
            | some (v, r3) =>
              match skipWs r3 with
              | ',' :: r4 => parseMembers fuel (skipWs r4) (acc ++ [(k, v)])
              | '\x7d' :: r4 => some (.obj (acc ++ [(k, v)]), r4)
              | _ => none)
         | _ => none)
    | _ => none

end

/-- Model of JSON.parse: parse one value and require only whitespace to
remain.  The fuel bound exceeds the recursion depth any input can force. -/
def jsonParse (s : String) : Option Json :=
  match parseVal (4 * (s.length + 1)) s.data with
  | some (j, rest) => if (skipWs rest).isEmpty then some j else none
  | none => none

/-- String of n spaces, used by the pretty printer. -/
def spaces (n : Nat) : String := String.mk (List.replicate n ' ')

/-- Escape a string for JSON output. -/
def escapeJsonChar (c : Char) : List Char :=
  match c with
  | '\n' => ['\\', 'n']
  | '\r' => ['\\', 'r']
  | '\t' => ['\\', 't']
  | '\\' => ['\\', '\\']
  | '"' => ['\\', '"']
  | other => [other]

/-- Quote and escape a string for JSON output. -/
def quoteJsonString (s : String) : String :=
  "\"" ++ String.mk (s.data.flatMap escapeJsonChar) ++ "\""

mutual

/-- Model of JSON.stringify(v, null, 2): ind is the indentation depth of
the construct being printed. -/
def stringifyAux : Nat → Json → String
  | _, .null => "null"
  | _, .bool true => "true"
  | _, .bool false => "false"
  | _, .num n => toString n
  | _, .str s => quoteJsonString s
  | _, .arr [] => "[]"
  | ind, .arr (e :: es) =>
    "[\n" ++ stringifyElems (ind + 2) (e :: es) ++ "\n" ++ spaces ind ++ "]"
  | _, .obj [] => "\x7b\x7d"
  | ind, .obj (f :: fs) =>
    "\x7b\n" ++ stringifyFields (ind + 2) (f :: fs) ++ "\n" ++ spaces ind ++ "\x7d"

/-- Print array elements at the given indentation, separated by commas. -/
def stringifyElems : Nat → List Json → String
  | _, [] => ""
  | ind, [e] => spaces ind ++ stringifyAux ind e
  | ind, e :: e2 :: es =>
    spaces ind ++ stringifyAux ind e ++ ",\n" ++ stringifyElems ind (e2 :: es)

/-- Print object fields at the given indentation, separated by commas. -/
def stringifyFields : Nat → List (String × Json) → String
  | _, [] => ""
  | ind, [(k, v)] => spaces ind ++ quoteJsonString k ++ ": " ++ stringifyAux ind v
  | ind, (k, v) :: f2 :: fs =>
    spaces ind ++ quoteJsonString k ++ ": " ++ stringifyAux ind v ++ ",\n"
      ++ stringifyFields ind (f2 :: fs)

end

/-- Model of JSON.stringify(v, null, 2) at top level. -/
def jsonStringify (j : Json) : String := stringifyAux 0 j

/-! The regex repair pipeline of attemptJSONRecovery

Each .replace call of the source is a single left-to-right scan over the
string collecting non-overlapping matches, exactly as a JavaScript global
regex replace does. -/

/-- Word character of the JavaScript regex class backslash-w. -/
def isWordChar (c : Char) : Bool :=
  ('a' ≤ c && c ≤ 'z') || ('A' ≤ c && c ≤ 'Z') || ('0' ≤ c && c ≤ '9') || c = '_'

/-- Whitespace of the JavaScript regex class backslash-s (ASCII part;
the inputs under study contain no exotic unicode spaces). -/
def isWsRegexChar (c : Char) : Bool :=
  c = ' ' || c = '\t' || c = '\n' || c = '\r' || c = '\x0c' || c = '\x0b'

/-- Match a run of whitespace followed by a closing brace or bracket,
the capture group of the trailing-comma regex. -/
def wsThenClose : List Char → Option (List Char × Char × List Char)
  | [] => none
  | c :: rest =>
    if c = '\x7d' || c = ']' then some ([], c, rest)
    else if isWsRegexChar c then
      match wsThenClose rest with
      | some (ws, b, r) => some (c :: ws, b, r)
      | none => none
    else none

/-- First replace of attemptJSONRecovery: drop every comma standing before
optional whitespace and a closing brace or bracket, keeping the capture
group; scanning resumes after the replaced text.  The fuel argument only
bounds the recursion; every step consumes at least one character, so the
bound passed by removeTrailingCommas is never reached. -/
def removeTrailingCommasGo : Nat → List Char → List Char
  | _, [] => []
  | 0, cs => cs
  | fuel + 1, ',' :: rest =>
    match wsThenClose rest with
    | some (ws, b, r) => ws ++ b :: removeTrailingCommasGo fuel r
    | none => ',' :: removeTrailingCommasGo fuel rest
  | fuel + 1, c :: rest => c :: removeTrailingCommasGo fuel rest

/-- First replace of attemptJSONRecovery at the top level. -/
def removeTrailingCommas (cs : List Char) : List Char :=
  removeTrailingCommasGo (cs.length + 1) cs

/-- Maximal prefix run of word characters, with the remainder. -/
def takeWordRun : List Char → List Char × List Char
  | [] => ([], [])
  | c :: rest =>
    if isWordChar c then
      match takeWordRun rest with
      | (run, r) => (c :: run, r)
    else ([], c :: rest)

theorem takeWordRun_snd_length :
    ∀ cs, (takeWordRun cs).2.length ≤ cs.length := by
  intro cs
  induction cs with
  | nil => simp [takeWordRun]
  | cons c rest ih =>
    simp only [takeWordRun]
    split
    · cases h : takeWordRun rest with
      | mk run r =>
        rw [h] at ih
        simpa using Nat.le_succ_of_le ih
    · simp

/-- Second replace of attemptJSONRecovery: wrap each maximal word-character
run that is immediately followed by a colon in double quotes.  When a run is
not followed by a colon no shorter suffix of that run can be either (the
character after the run is unchanged), so skipping the whole run is the same
scan the JavaScript regex engine performs.  The fuel argument only bounds
the recursion; every step consumes at least one character, so the bound
passed by quoteKeys is never reached. -/
def quoteKeysGo : Nat → List Char → List Char
  | _, [] => []
  | 0, cs => cs
  | fuel + 1, c :: rest =>
    if isWordChar c then
      match takeWordRun (c :: rest) with
      | (run, ':' :: r) => '"' :: (run ++ '"' :: ':' :: quoteKeysGo fuel r)
      | (run, r) => run ++ quoteKeysGo fuel r
    else c :: quoteKeysGo fuel rest

/-- Second replace of attemptJSONRecovery at the top level. -/
def quoteKeys (cs : List Char) : List Char := quoteKeysGo (cs.length + 1) cs

/-- Fourth replace of attemptJSONRecovery: collapse every run of commas to
a single comma.  The fuel argument only bounds the recursion; every step
consumes at least one character, so the bound passed by collapseCommas is
never reached. -/
def collapseCommasGo : Nat → List Char → List Char
  | _, [] => []
  | 0, cs => cs
  | fuel + 1, ',' :: rest =>
    ',' :: collapseCommasGo fuel (rest.dropWhile (fun c => c = ','))
  | fuel + 1, c :: rest => c :: collapseCommasGo fuel rest

/-- Fourth replace of attemptJSONRecovery at the top level. -/
def collapseCommas (cs : List Char) : List Char :=
  collapseCommasGo (cs.length + 1) cs

/-- Fifth replace of attemptJSONRecovery: remove the first newline that is
followed only by whitespace up to the end of the string (the regex is not
global, but a second match cannot exist after the removal). -/
def stripTrailingNlWs : List Char → List Char
  | [] => []
  | '\n' :: rest =>
    if rest.all isWsRegexChar then [] else '\n' :: stripTrailingNlWs rest
  | c :: rest => c :: stripTrailingNlWs rest

/-- Number of occurrences of a character. -/
def countChar (c : Char) (cs : List Char) : Nat :=
  (cs.filter (fun x => x = c)).length

/-- Model of FileOperations.attemptJSONRecovery: the five regex replaces in
source order, then append the missing closing braces and brackets counted on
the fixed text, then JSON.parse; a parse failure is caught and becomes
null/none. -/
def attemptJSONRecovery (content : String) : Option Json :=
  let s1 := removeTrailingCommas content.data
  let s2 := quoteKeys s1
  let s3 := s2.map (fun c => if c = '\x27' then '"' else c)
  let s4 := collapseCommas s3
  let s5 := stripTrailingNlWs s4
  let fixed := s5
    ++ List.replicate (countChar '\x7b' s5 - countChar '\x7d' s5) '\x7d'
    ++ List.replicate (countChar '[' s5 - countChar ']' s5) ']'
  jsonParse (String.mk fixed)

/-! State model

SharedFS is the filesystem surface for one document path: the lock sidecar
file, the document file, the temp file of an in-flight write, and the
backup directory (entries keyed by timestamp, the filename suffix).
ProcSt is the per-process state of one FileOperations instance: its
in-process this.locks entry for the path, its uuid generator (fresh ids as
a counter), and the deferred releases queued with setTimeout. -/

/-- Payload of a well-formed lock sidecar file. -/
structure LockData where
  lockId : Nat
  workerId : String
  timestamp : Nat
deriving Repr, DecidableEq

/-- Bytes of the lock sidecar file: either valid JSON holding a LockData,
or content that JSON.parse rejects. -/
inductive LockFileContent where
  | valid (d : LockData)
  | corrupt
deriving Repr, DecidableEq

/-- The fields of the lock file readLockFile actually yields to its caller
(the fallback object on read or parse failure has exactly these fields). -/
structure LockView where
  timestamp : Nat
  workerId : String
deriving Repr, DecidableEq

/-- Model of FileOperations.readLockFile: parse the sidecar file, and on
any read or parse failure return the timestamp-0 fallback record. -/
def readLockFile : Option LockFileContent → LockView
  | some (.valid d) => ⟨d.timestamp, d.workerId⟩
  | some .corrupt => ⟨0, "unknown"⟩
  | none => ⟨0, "unknown"⟩

/-- Filesystem state for one document path. -/
structure SharedFS where
  lockFile : Option LockFileContent
  target : Option String
  temp : Option String
  backups : List (Nat × String)
deriving Repr, DecidableEq

/-- Per-process state of one FileOperations instance for that path. -/
structure ProcSt where
  locksMap : Option Nat
  nextId : Nat
  scheduled : List (Nat × Nat)
deriving Repr, DecidableEq

/-- The contention error message acquireLock throws. -/
def lockedMsg (wid : String) : String :=
  "File is locked by " ++ wid ++ ". Try again in a moment."

/-- Check phase of acquireLock (lines 25-35 of the source): if the sidecar
exists and is stale remove it, if it exists and is fresh throw; on ok the
sidecar is absent.  This phase only reads and removes; the grant is a
separate write, so another process can run between the two phases. -/
def acquireCheck (now timeout : Nat) (lockFile : Option LockFileContent) :
    Except String Unit :=
  match lockFile with
  | some c =>
    let v := readLockFile (some c)
    if now - v.timestamp > timeout then .ok () else .error (lockedMsg v.workerId)
  | none => .ok ()

/-- Grant phase of acquireLock (lines 38-45): fs.writeFile of the new lock
data, overwriting whatever the sidecar path holds at that moment. -/
def acquireCommit (now : Nat) (wid : String) (lockId : Nat) : LockFileContent :=
  .valid ⟨lockId, wid, now⟩

/-- Model of FileOperations.acquireLock: check phase, then grant a fresh
lockId, record it in the in-process map, and schedule the deferred
setTimeout auto-release of (timeout, lockId). -/
def acquireLock (now : Nat) (wid : String) (timeout : Nat)
    (fs : SharedFS) (p : ProcSt) : Except String Nat × SharedFS × ProcSt :=
  match acquireCheck now timeout fs.lockFile with
  | .error e => (.error e, fs, p)
  | .ok _ =>
    let lockId := p.nextId
    (.ok lockId,
     { fs with lockFile := some (acquireCommit now wid lockId) },
     { p with nextId := p.nextId + 1,
              locksMap := some lockId,
              scheduled := p.scheduled ++ [(timeout, lockId)] })

/-- Model of FileOperations.releaseLock: compare the given lockId against
the in-process map entry (not against the sidecar file's stored lockId);
on a match remove the sidecar file and the map entry, otherwise do
nothing.  fs.remove of an absent file is not an error. -/
def releaseLock (lockId : Nat) (fs : SharedFS) (p : ProcSt) :
    SharedFS × ProcSt :=
  match p.locksMap with
  | some held =>
    if held = lockId then
      ({ fs with lockFile := none }, { p with locksMap := none })
    else (fs, p)
  | none => (fs, p)

/-- Meaning of one scheduled setTimeout entry: when the timer fires it
calls releaseLock with the captured lockId. -/
def runScheduledEntry (entry : Nat × Nat) (fs : SharedFS) (p : ProcSt) :
    SharedFS × ProcSt :=
  releaseLock entry.2 fs p

/-! Backups -/

/-- Insert into a list sorted newest-first, as the comparator
timestampB - timestampA of cleanOldBackups orders it. -/
def insertDescBackup (x : Nat × String) :
    List (Nat × String) → List (Nat × String)
  | [] => [x]
  | y :: ys => if y.1 ≤ x.1 then x :: y :: ys else y :: insertDescBackup x ys

/-- Sort the backup directory newest-first by the timestamp suffix. -/
def sortNewestFirst (l : List (Nat × String)) : List (Nat × String) :=
  l.foldr insertDescBackup []

/-- fs.copy of the current bytes to name.backup.timestamp; a second copy to
the same timestamp overwrites the same filename. -/
def insertBackup (backups : List (Nat × String)) (ts : Nat) (bytes : String) :
    List (Nat × String) :=
  backups.filter (fun b => b.1 ≠ ts) ++ [(ts, bytes)]

/-- Model of FileOperations.cleanOldBackups: sort newest-first and delete
everything after the first 10. -/
def cleanOldBackups (backups : List (Nat × String)) : List (Nat × String) :=
  (sortNewestFirst backups).take 10

/-- Model of FileOperations.createBackup: no-op when the document does not
exist, otherwise copy its bytes to a timestamped backup and prune. -/
def createBackup (now : Nat) (fs : SharedFS) : SharedFS :=
  match fs.target with
  | none => fs
  | some bytes =>
    { fs with backups := cleanOldBackups (insertBackup fs.backups now bytes) }

/-! Atomic write -/

/-- Data handed to atomicWrite: already a string, or a value to be
serialized with JSON.stringify(data, null, 2). -/
inductive WriteData where
  | str (s : String)
  | obj (j : Json)

/-- Serialization step of atomicWrite (line 97 of the source). -/
def writeDataString : WriteData → String
  | .str s => s
  | .obj j => jsonStringify j

/-- Injected I/O failures for one atomicWrite call: the temp-file write or
the atomic move may throw. -/
structure IOFault where
  tempWriteFails : Bool
  moveFails : Bool
deriving Repr, DecidableEq

/-- Model of FileOperations.atomicWrite.  Returns the thrown error message
(none on success) together with the post state.  isJson tells whether
filePath ends with .json, which enables the post-write parse validation of
the temp file.  Every failure inside the try removes the temp file, and
the finally block releases the lock on every path that entered the try. -/
def atomicWrite (now : Nat) (data : WriteData) (lockId : Nat) (isJson : Bool)
    (fault : IOFault) (fs : SharedFS) (p : ProcSt) :
    Option String × SharedFS × ProcSt :=
  if p.locksMap = some lockId then
    let dataString := writeDataString data
    let fs1 := createBackup now fs
    if fault.tempWriteFails then
      let r := releaseLock lockId { fs1 with temp := none } p
      (some "Atomic write failed: temp write error", r.1, r.2)
    else
      let fs2 := { fs1 with temp := some dataString }
      if isJson && !(jsonParse dataString).isSome then
        let r := releaseLock lockId { fs2 with temp := none } p
        (some "Atomic write failed: validation error", r.1, r.2)
      else if fault.moveFails then
        let r := releaseLock lockId { fs2 with temp := none } p
        (some "Atomic write failed: move error", r.1, r.2)
      else
        let r := releaseLock lockId { fs2 with temp := none, target := some dataString } p
        (none, r.1, r.2)
  else (some "Cannot write without proper file lock", fs, p)

/-! Read path -/

/-- Does the first list start with the second? -/
def listStarts : List Char → List Char → Bool
  | _, [] => true
  | [], _ => false
  | a :: as, b :: bs => a == b && listStarts as bs

/-- Model of JavaScript String.prototype.startsWith. -/
def strStarts (s pat : String) : Bool := listStarts s.data pat.data

/-- Model of JavaScript String.prototype.endsWith. -/
def strEnds (s pat : String) : Bool := listStarts s.data.reverse pat.data.reverse

/-- Replace the first occurrence of a pattern, as JavaScript
String.prototype.replace does with a string pattern. -/
def listReplaceFirst : List Char → List Char → List Char → List Char
  | [], _, _ => []
  | c :: rest, pat, repl =>
    if listStarts (c :: rest) pat then repl ++ (c :: rest).drop pat.length
    else c :: listReplaceFirst rest pat repl

/-- Model of JavaScript String.prototype.replace with a string pattern. -/
def replaceFirst (s pat repl : String) : String :=
  String.mk (listReplaceFirst s.data pat.data repl.data)

/-- Model of FileOperations.getDefaultStructure; the ISO timestamp the
source takes from new Date() is passed in. -/
def getDefaultStructure (fileName : String) (nowIso : String) : Json :=
  if strStarts fileName "worker-" then
    Json.obj
      [("worker_id", .str (replaceFirst (replaceFirst fileName "worker-" "") ".json" "")),
       ("last_update", .str nowIso),
       ("status", .str "ready"),
       ("current_focus", .str ""),
       ("today", .obj [("completed", .arr []), ("in_progress", .arr []),
                       ("planned", .arr [])]),
       ("blockers", .arr []),
       ("metrics", .obj []),
       ("priorities", .obj [("high", .arr []), ("medium", .arr []),
                            ("low", .arr [])]),
       ("comments", .str ""),
       ("next_24h", .arr [])]
  else if fileName = "tasks.json" then
    Json.obj [("tasks", .arr []), ("last_updated", .str nowIso)]
  else Json.obj []

/-- Default lock timeout, this.maxLockTime of the constructor. -/
def maxLockTime : Nat := 30000

/-- Model of FileOperations.restoreFromBackup: pick the newest backup by
timestamp (whether or not its bytes parse), acquire the lock, overwrite the
target with the backup bytes, release, and only then JSON.parse the bytes;
any exception in this chain is caught and yields null, leaving whatever
state the chain had already produced. -/
def restoreFromBackup (now : Nat) (wid : String) (fs : SharedFS) (p : ProcSt) :
    Option Json × SharedFS × ProcSt :=
  match sortNewestFirst fs.backups with
  | [] => (none, fs, p)
  | (_, content) :: _ =>
    match acquireLock now wid maxLockTime fs p with
    | (.error _, fs1, p1) => (none, fs1, p1)
    | (.ok lockId, fs1, p1) =>
      let fs2 := { fs1 with target := some content }
      let r := releaseLock lockId fs2 p1
      match jsonParse content with
      | some j => (some j, r.1, r.2)
      | none => (none, r.1, r.2)

/-- Backup-then-default tail of safeJSONRead: try restoreFromBackup, test
its result for truthiness, and otherwise fall back to the default
structure. -/
def fallbackRestore (now : Nat) (wid : String) (fileName nowIso : String)
    (fs : SharedFS) (p : ProcSt) : Json × SharedFS × ProcSt :=
  match restoreFromBackup now wid fs p with
  | (some j, fs1, p1) =>
    if jsTruthy j then (j, fs1, p1)
    else (getDefaultStructure fileName nowIso, fs1, p1)
  | (none, fs1, p1) => (getDefaultStructure fileName nowIso, fs1, p1)

/-- Model of FileOperations.safeJSONRead: parse the document; on failure
run attemptJSONRecovery and, when it yields a truthy value, persist it with
acquireLock plus atomicWrite and return it; if recovery or its persistence
fails, restore from backup; as a last resort return the default
structure. -/
def safeJSONRead (now : Nat) (wid : String) (fileName nowIso : String)
    (fs : SharedFS) (p : ProcSt) : Json × SharedFS × ProcSt :=
  match fs.target with
  | none => fallbackRestore now wid fileName nowIso fs p
  | some content =>
    match jsonParse content with
    | some j => (j, fs, p)
    | none =>
      match attemptJSONRecovery content with
      | some recovered =>
        if jsTruthy recovered then
          match acquireLock now wid maxLockTime fs p with
          | (.ok lockId, fs1, p1) =>
            (match atomicWrite now (.obj recovered) lockId
                (strEnds fileName ".json") ⟨false, false⟩ fs1 p1 with
             | (none, fs2, p2) => (recovered, fs2, p2)
             | (some _, fs2, p2) => fallbackRestore now wid fileName nowIso fs2 p2)
          | (.error _, fs1, p1) => fallbackRestore now wid fileName nowIso fs1 p1
        else fallbackRestore now wid fileName nowIso fs p
      | none => fallbackRestore now wid fileName nowIso fs p

/-- One sequential write: acquire the lock at the write's timestamp, then
atomicWrite its content (a non-.json path, no injected faults). -/
def writeOnce (wid : String) (st : SharedFS × ProcSt) (w : Nat × String) :
    SharedFS × ProcSt :=
  match acquireLock w.1 wid maxLockTime st.1 st.2 with
  | (.ok lockId, fs1, p1) =>
    (atomicWrite w.1 (.str w.2) lockId false ⟨false, false⟩ fs1 p1).2
  | (.error _, fs1, p1) => (fs1, p1)

/-- Sequential driver for the backup-retention scenario. -/
def runWrites (wid : String) (writes : List (Nat × String))
    (fs : SharedFS) (p : ProcSt) : SharedFS × ProcSt :=
  writes.foldl (writeOnce wid) (fs, p)

/-- The backups a run of sequential writes snapshots, oldest first: write i
backs up the bytes the document held just before it, under write i's
timestamp. -/
def expectedBackups (c : String) : List (Nat × String) → List (Nat × String)
  | [] => []
  | (t, s) :: rest => (t, c) :: expectedBackups s rest

/-! Helper lemmas -/

theorem createBackup_target (now : Nat) (fs : SharedFS) :
    (createBackup now fs).target = fs.target := by
  cases h : fs.target <;> simp [createBackup, h]

theorem createBackup_temp (now : Nat) (fs : SharedFS) :
    (createBackup now fs).temp = fs.temp := by
  cases h : fs.target <;> simp [createBackup, h]

theorem createBackup_lockFile (now : Nat) (fs : SharedFS) :
    (createBackup now fs).lockFile = fs.lockFile := by
  cases h : fs.target <;> simp [createBackup, h]

theorem releaseLock_fs_cases (lockId : Nat) (fs : SharedFS) (p : ProcSt) :
    (releaseLock lockId fs p).1 = fs ∨
    (releaseLock lockId fs p).1 = { fs with lockFile := none } := by
  unfold releaseLock
  cases p.locksMap with
  | none => left; rfl
  | some held =>
    by_cases h : held = lockId
    · right; simp [h]
    · left; simp [h]

theorem releaseLock_fst_target (lockId : Nat) (fs : SharedFS) (p : ProcSt) :
    (releaseLock lockId fs p).1.target = fs.target := by
  rcases releaseLock_fs_cases lockId fs p with h | h <;> rw [h]

theorem releaseLock_fst_temp (lockId : Nat) (fs : SharedFS) (p : ProcSt) :
    (releaseLock lockId fs p).1.temp = fs.temp := by
  rcases releaseLock_fs_cases lockId fs p with h | h <;> rw [h]

theorem releaseLock_held (lockId : Nat) (fs : SharedFS) (p : ProcSt)
    (h : p.locksMap = some lockId) :
    (releaseLock lockId fs p).1.lockFile = none ∧
    (releaseLock lockId fs p).2.locksMap = none := by
  simp [releaseLock, h]

/-! Claims -/

/-- C1: for every document path, if acquireLock runs while a lock file
exists whose age is below the timeout and whose owner differs from the
caller, the call fails with the lock-contention error; if the existing
lock's age exceeds the timeout, the stale lock is forcibly removed and the
call succeeds, returning a fresh lockId regardless of the prior owner. -/
theorem acquire_contention_and_stale_reclamation
    (now timeout : Nat) (wid : String) (fs : SharedFS) (p : ProcSt)
    (d : LockData) (hlf : fs.lockFile = some (.valid d))
    (hfresh : d.lockId < p.nextId) :
    (now - d.timestamp < timeout → d.workerId ≠ wid →
      acquireLock now wid timeout fs p = (.error (lockedMsg d.workerId), fs, p))
    ∧ (timeout < now - d.timestamp →
      acquireLock now wid timeout fs p =
        (.ok p.nextId,
         { fs with lockFile := some (.valid ⟨p.nextId, wid, now⟩) },
         { p with nextId := p.nextId + 1, locksMap := some p.nextId,
                  scheduled := p.scheduled ++ [(timeout, p.nextId)] })
      ∧ p.nextId ≠ d.lockId) := by
  constructor
  · intro hage _hdiff
    have hc : ¬ (now - d.timestamp > timeout) := by omega
    simp [acquireLock, acquireCheck, readLockFile, hlf, hc]
  · intro hage
    have hc : now - d.timestamp > timeout := hage
    refine ⟨?_, by omega⟩
    simp [acquireLock, acquireCheck, readLockFile, hlf, hc, acquireCommit]

theorem acquire_contention_stale_witness :
    acquireLock 10 "zephyr" 30000
        ⟨some (.valid ⟨1, "alex", 0⟩), none, none, []⟩ ⟨none, 101, []⟩
      = (.error (lockedMsg "alex"),
         ⟨some (.valid ⟨1, "alex", 0⟩), none, none, []⟩, ⟨none, 101, []⟩) :=
  (acquire_contention_and_stale_reclamation 10 30000 "zephyr"
      ⟨some (.valid ⟨1, "alex", 0⟩), none, none, []⟩ ⟨none, 101, []⟩
      ⟨1, "alex", 0⟩ rfl (by decide)).1 (by decide) (by decide)

/-- C2 is violated by the code across processes: owner A acquires at time 0
and its lock goes stale; a different process B reclaims it at time 31001
and is granted lockId 101, stored in the sidecar; A's late releaseLock with
its superseded lockId 1 compares against A's own in-process map (not the
sidecar's stored lockId), matches, and removes the sidecar holding B's
lock — instead of being the no-op the claim requires. -/
theorem release_superseded_deletes_newer_lock :
    (acquireLock 0 "alex" 30000 ⟨none, none, none, []⟩ ⟨none, 1, []⟩).1 = .ok 1
    ∧ (acquireLock 31001 "zephyr" 30000
        (acquireLock 0 "alex" 30000 ⟨none, none, none, []⟩ ⟨none, 1, []⟩).2.1
        ⟨none, 101, []⟩).1 = .ok 101
    ∧ (acquireLock 31001 "zephyr" 30000
        (acquireLock 0 "alex" 30000 ⟨none, none, none, []⟩ ⟨none, 1, []⟩).2.1
        ⟨none, 101, []⟩).2.1.lockFile = some (.valid ⟨101, "zephyr", 31001⟩)
    ∧ (releaseLock 1
        (acquireLock 31001 "zephyr" 30000
          (acquireLock 0 "alex" 30000 ⟨none, none, none, []⟩ ⟨none, 1, []⟩).2.1
          ⟨none, 101, []⟩).2.1
        (acquireLock 0 "alex" 30000 ⟨none, none, none, []⟩ ⟨none, 1, []⟩).2.2).1.lockFile
      = none :=
  ⟨rfl, rfl, rfl, rfl⟩

/-- C3 is violated by the code: acquireLock grants via an existence check
(fs.pathExists) followed by a separate fs.writeFile, not an atomic
create-if-absent.  Both racing processes run the check phase against the
same empty filesystem and both pass; process A's full acquireLock returns
ok with lockId 1 and records itself as holder, process B's acquireLock —
whose check also observed no sidecar — returns ok with lockId 101, and its
blind grant overwrites A's sidecar, so two distinct fresh non-stale lockIds
are simultaneously held for one path. -/
theorem acquire_check_then_create_race :
    acquireCheck 1000 30000 (none : Option LockFileContent) = .ok ()
    ∧ (acquireLock 1000 "alex" 30000 ⟨none, none, none, []⟩ ⟨none, 1, []⟩).1 = .ok 1
    ∧ (acquireLock 1000 "alex" 30000 ⟨none, none, none, []⟩
        ⟨none, 1, []⟩).2.2.locksMap = some 1
    ∧ (acquireLock 1000 "zephyr" 30000 ⟨none, none, none, []⟩ ⟨none, 101, []⟩).1 = .ok 101
    ∧ ({ (acquireLock 1000 "alex" 30000 ⟨none, none, none, []⟩ ⟨none, 1, []⟩).2.1
          with lockFile := some (acquireCommit 1000 "zephyr" 101) }).lockFile
        = some (.valid ⟨101, "zephyr", 1000⟩)
    ∧ readLockFile (some (acquireCommit 1000 "zephyr" 101)) ≠
        readLockFile (some (acquireCommit 1000 "alex" 1)) := by
  refine ⟨rfl, rfl, rfl, rfl, rfl, ?_⟩
  simp [readLockFile, acquireCommit]

/-- C9 is violated by the code: every successful acquireLock schedules a
deferred auto-release (the setTimeout of the source) that, when it fires,
calls releaseLock with the granted lockId — lock expiry is not determined
solely by lazy timestamp comparison at the next acquire. -/
theorem acquire_schedules_deferred_release
    (now : Nat) (wid : String) (timeout : Nat) (fs : SharedFS) (p : ProcSt)
    (lockId : Nat) (fs' : SharedFS) (p' : ProcSt)
    (h : acquireLock now wid timeout fs p = (.ok lockId, fs', p')) :
    p'.scheduled = p.scheduled ++ [(timeout, lockId)]
    ∧ runScheduledEntry (timeout, lockId) fs' p' = releaseLock lockId fs' p' := by
  unfold acquireLock at h
  cases hc : acquireCheck now timeout fs.lockFile with
  | error e => rw [hc] at h; simp at h
  | ok u =>
    rw [hc] at h
    simp only [Prod.mk.injEq, Except.ok.injEq] at h
    obtain ⟨h1, _, h3⟩ := h
    subst h1
    subst h3
    exact ⟨rfl, rfl⟩

theorem acquire_schedules_deferred_release_witness :
    ((acquireLock 0 "alex" 30000 ⟨none, none, none, []⟩ ⟨none, 1, []⟩).2.2).scheduled
      = ([] : List (Nat × Nat)) ++ [(30000, 1)]
    ∧ runScheduledEntry (30000, 1)
        (acquireLock 0 "alex" 30000 ⟨none, none, none, []⟩ ⟨none, 1, []⟩).2.1
        (acquireLock 0 "alex" 30000 ⟨none, none, none, []⟩ ⟨none, 1, []⟩).2.2
      = releaseLock 1
          (acquireLock 0 "alex" 30000 ⟨none, none, none, []⟩ ⟨none, 1, []⟩).2.1
          (acquireLock 0 "alex" 30000 ⟨none, none, none, []⟩ ⟨none, 1, []⟩).2.2 :=
  acquire_schedules_deferred_release 0 "alex" 30000
    ⟨none, none, none, []⟩ ⟨none, 1, []⟩ 1 _ _ rfl

/-- C10: a lock sidecar that cannot be parsed reads as the record with
timestamp 0 and owner unknown, so the next acquireLock with any timeout
below the current epoch time treats it as stale, removes it, and grants a
fresh lock to any caller. -/
theorem corrupt_lock_read_defaults_and_reclaimed
    (now timeout : Nat) (wid : String) (fs : SharedFS) (p : ProcSt)
    (hlf : fs.lockFile = some .corrupt) (ht : timeout < now) :
    readLockFile fs.lockFile = ⟨0, "unknown"⟩
    ∧ acquireLock now wid timeout fs p =
        (.ok p.nextId,
         { fs with lockFile := some (.valid ⟨p.nextId, wid, now⟩) },
         { p with nextId := p.nextId + 1, locksMap := some p.nextId,
                  scheduled := p.scheduled ++ [(timeout, p.nextId)] }) := by
  rw [hlf]
  refine ⟨rfl, ?_⟩
  simp [acquireLock, acquireCheck, readLockFile, hlf, acquireCommit, ht]

theorem corrupt_lock_reclaimed_witness :
    readLockFile (some LockFileContent.corrupt) = ⟨0, "unknown"⟩
    ∧ acquireLock 500 "zephyr" 100 ⟨some .corrupt, none, none, []⟩ ⟨none, 7, []⟩ =
        (.ok 7,
         ⟨some (.valid ⟨7, "zephyr", 500⟩), none, none, []⟩,
         ⟨some 7, 8, [(100, 7)]⟩) :=
  corrupt_lock_read_defaults_and_reclaimed 500 100 "zephyr"
    ⟨some .corrupt, none, none, []⟩ ⟨none, 7, []⟩ rfl (by decide)

/-- C8: with on-disk bytes consisting of the object a colon 1 followed by a
trailing comma, safeJSONRead returns the parsed object with a equal to 1,
and persists the repaired serialized form back to the document through
acquireLock and atomicWrite: the corrupt bytes are backed up first, the
target ends as the pretty-printed repaired JSON, the lock is released, and
the acquire's deferred auto-release was scheduled. -/
theorem safeRead_repairs_trailing_comma :
    safeJSONRead 50 "alex" "data.json" "iso"
        ⟨none, some "\x7b\"a\":1,\x7d", none, []⟩ ⟨none, 1, []⟩
      = (Json.obj [("a", Json.num 1)],
         ⟨none, some (jsonStringify (Json.obj [("a", Json.num 1)])), none,
          [(50, "\x7b\"a\":1,\x7d")]⟩,
         ⟨none, 2, [(30000, 1)]⟩)
    ∧ jsonStringify (Json.obj [("a", Json.num 1)]) = "\x7b\n  \"a\": 1\n\x7d" :=
  ⟨rfl, rfl⟩

/-- C4: every call to atomicWrite that fails for any modelled reason
(missing or wrong lock, post-write JSON validation failure, injected I/O
error on the temp write or the atomic move) leaves the target bytes
identical to their pre-call state and leaves no temp file behind. -/
theorem atomicWrite_failure_preserves_target
    (now : Nat) (data : WriteData) (lockId : Nat) (isJson : Bool)
    (fault : IOFault) (fs : SharedFS) (p : ProcSt) (e : String)
    (htemp : fs.temp = none)
    (herr : (atomicWrite now data lockId isJson fault fs p).1 = some e) :
    (atomicWrite now data lockId isJson fault fs p).2.1.target = fs.target
    ∧ (atomicWrite now data lockId isJson fault fs p).2.1.temp = none := by
  by_cases hl : p.locksMap = some lockId
  · by_cases hf : fault.tempWriteFails = true
    · simp only [atomicWrite, if_pos hl, if_pos hf]
      exact ⟨by simp [releaseLock_fst_target, createBackup_target],
             by simp [releaseLock_fst_temp]⟩
    · by_cases hv : (isJson && !(jsonParse (writeDataString data)).isSome) = true
      · simp only [atomicWrite, if_pos hl, if_neg hf, if_pos hv]
        exact ⟨by simp [releaseLock_fst_target, createBackup_target],
               by simp [releaseLock_fst_temp]⟩
      · by_cases hm : fault.moveFails = true
        · simp only [atomicWrite, if_pos hl, if_neg hf, if_neg hv, if_pos hm]
          exact ⟨by simp [releaseLock_fst_target, createBackup_target],
                 by simp [releaseLock_fst_temp]⟩
        · simp only [atomicWrite, if_pos hl, if_neg hf, if_neg hv, if_neg hm] at herr
          simp at herr
  · simp only [atomicWrite, if_neg hl]
    exact ⟨trivial, htemp⟩

theorem atomicWrite_failure_witness :
    (atomicWrite 5 (.str "x") 7 false ⟨false, false⟩
        ⟨none, some "orig", none, []⟩ ⟨none, 1, []⟩).2.1.target = some "orig"
    ∧ (atomicWrite 5 (.str "x") 7 false ⟨false, false⟩
        ⟨none, some "orig", none, []⟩ ⟨none, 1, []⟩).2.1.temp = none := by
  have h := atomicWrite_failure_preserves_target 5 (.str "x") 7 false ⟨false, false⟩
    ⟨none, some "orig", none, []⟩ ⟨none, 1, []⟩
    "Cannot write without proper file lock" rfl rfl
  exact ⟨h.1, h.2⟩

/-- C5 is refuted at this input: atomicWrite called with a lockId that does
not match the held lock returns an error without releasing anything, so
after the call the path's lock (lockId 1) is still held both in the
in-process map and on disk — an exit path of write after which the lock for
that path remains held. -/
theorem atomicWrite_wrong_lock_leaves_lock_held :
    (atomicWrite 5 (.str "x") 2 false ⟨false, false⟩
        ⟨some (.valid ⟨1, "alex", 0⟩), some "orig", none, []⟩ ⟨some 1, 2, []⟩).1
      = some "Cannot write without proper file lock"
    ∧ (atomicWrite 5 (.str "x") 2 false ⟨false, false⟩
        ⟨some (.valid ⟨1, "alex", 0⟩), some "orig", none, []⟩ ⟨some 1, 2, []⟩).2.2.locksMap
      = some 1
    ∧ (atomicWrite 5 (.str "x") 2 false ⟨false, false⟩
        ⟨some (.valid ⟨1, "alex", 0⟩), some "orig", none, []⟩ ⟨some 1, 2, []⟩).2.1.lockFile
      = some (.valid ⟨1, "alex", 0⟩) :=
  ⟨rfl, rfl, rfl⟩

/-- C5 amended: every exit path of atomicWrite that passes the lock
validation releases the lock as its final step, and on every exit path —
success or any failure — no lock with the given lockId remains held after
the call; when validation fails because a different lockId holds the path,
that other holder's lock survives. -/
theorem atomicWrite_releases_given_lock
    (now : Nat) (data : WriteData) (lockId : Nat) (isJson : Bool)
    (fault : IOFault) (fs : SharedFS) (p : ProcSt) :
    (atomicWrite now data lockId isJson fault fs p).2.2.locksMap ≠ some lockId
    ∧ (p.locksMap = some lockId →
        (atomicWrite now data lockId isJson fault fs p).2.2.locksMap = none
        ∧ (atomicWrite now data lockId isJson fault fs p).2.1.lockFile = none) := by
  by_cases hl : p.locksMap = some lockId
  · have hrel : ∀ fs2 : SharedFS,
        (releaseLock lockId fs2 p).1.lockFile = none ∧
        (releaseLock lockId fs2 p).2.locksMap = none :=
      fun fs2 => releaseLock_held lockId fs2 p hl
    by_cases hf : fault.tempWriteFails = true
    · simp only [atomicWrite, if_pos hl, if_pos hf]
      exact ⟨by simp [(hrel _).2], fun _ => ⟨(hrel _).2, (hrel _).1⟩⟩
    · by_cases hv : (isJson && !(jsonParse (writeDataString data)).isSome) = true
      · simp only [atomicWrite, if_pos hl, if_neg hf, if_pos hv]
        exact ⟨by simp [(hrel _).2], fun _ => ⟨(hrel _).2, (hrel _).1⟩⟩
      · by_cases hm : fault.moveFails = true
        · simp only [atomicWrite, if_pos hl, if_neg hf, if_neg hv, if_pos hm]
          exact ⟨by simp [(hrel _).2], fun _ => ⟨(hrel _).2, (hrel _).1⟩⟩
        · simp only [atomicWrite, if_pos hl, if_neg hf, if_neg hv, if_neg hm]
          exact ⟨by simp [(hrel _).2], fun _ => ⟨(hrel _).2, (hrel _).1⟩⟩
  · simp only [atomicWrite, if_neg hl]
    exact ⟨hl, fun h => absurd h hl⟩

theorem atomicWrite_releases_given_lock_witness :
    (atomicWrite 5 (.str "x") 1 false ⟨false, false⟩
        ⟨some (.valid ⟨1, "alex", 0⟩), some "orig", none, []⟩
        ⟨some 1, 2, []⟩).2.2.locksMap ≠ some 1
    ∧ ((⟨some 1, 2, []⟩ : ProcSt).locksMap = some 1 →
        (atomicWrite 5 (.str "x") 1 false ⟨false, false⟩
          ⟨some (.valid ⟨1, "alex", 0⟩), some "orig", none, []⟩
          ⟨some 1, 2, []⟩).2.2.locksMap = none
        ∧ (atomicWrite 5 (.str "x") 1 false ⟨false, false⟩
            ⟨some (.valid ⟨1, "alex", 0⟩), some "orig", none, []⟩
            ⟨some 1, 2, []⟩).2.1.lockFile = none) :=
  atomicWrite_releases_given_lock 5 (.str "x") 1 false ⟨false, false⟩
    ⟨some (.valid ⟨1, "alex", 0⟩), some "orig", none, []⟩ ⟨some 1, 2, []⟩

/-- C7 is refuted at this input: the document is irreparably corrupt and
two backups exist, the newest unparseable and the older one valid; the
claim says safeRead restores from the newest VALID backup and returns its
parsed content, but the code picks the newest backup unconditionally,
overwrites the target with its unparseable bytes, and returns the default
empty structure instead of the valid backup's object. -/
theorem safeRead_skips_older_valid_backup :
    jsonParse "\x7b\"a\": 1\x7d" = some (Json.obj [("a", Json.num 1)])
    ∧ (safeJSONRead 300 "alex" "data.json" "iso"
        ⟨none, some "\x7d\x7b", none, [(100, "\x7b\"a\": 1\x7d"), (200, "\x7b\x7b")]⟩
        ⟨none, 1, []⟩).1 = Json.obj []
    ∧ (safeJSONRead 300 "alex" "data.json" "iso"
        ⟨none, some "\x7d\x7b", none, [(100, "\x7b\"a\": 1\x7d"), (200, "\x7b\x7b")]⟩
        ⟨none, 1, []⟩).2.1.target = some "\x7b\x7b"
    ∧ Json.obj [] ≠ Json.obj [("a", Json.num 1)] := by
  refine ⟨rfl, rfl, rfl, by simp⟩

/-- C7 amended: when both the parse and the tolerant repair of the document
fail, safeJSONRead restores from the newest backup regardless of its
validity: it overwrites the target with that backup's bytes and, when those
bytes parse to a truthy value, returns their parsed content — in particular
this always succeeds when the one backup present is valid.  If the newest
backup's bytes do not parse, the target is still left overwritten with them
and the default structure is returned, even when an older valid backup
exists. -/
theorem safeRead_restores_newest_backup
    (now : Nat) (wid fileName nowIso c bnew : String) (tnew : Nat)
    (rest : List (Nat × String)) (j : Json) (fs : SharedFS) (p : ProcSt)
    (htg : fs.target = some c)
    (hparse : jsonParse c = none)
    (hrec : attemptJSONRecovery c = none)
    (hlf : fs.lockFile = none)
    (hsort : sortNewestFirst fs.backups = (tnew, bnew) :: rest)
    (hbparse : jsonParse bnew = some j)
    (htruthy : jsTruthy j = true) :
    (safeJSONRead now wid fileName nowIso fs p).1 = j
    ∧ (safeJSONRead now wid fileName nowIso fs p).2.1.target = some bnew := by
  unfold safeJSONRead
  rw [htg]
  simp only [hparse, hrec]
  unfold fallbackRestore restoreFromBackup
  rw [hsort]
  simp [acquireLock, acquireCheck, hlf, releaseLock, hbparse, htruthy]

theorem safeRead_restores_newest_backup_witness :
    (safeJSONRead 300 "alex" "data.json" "iso"
        ⟨none, some "\x7d\x7b", none, [(100, "\x7b\"a\": 1\x7d")]⟩ ⟨none, 1, []⟩).1
      = Json.obj [("a", Json.num 1)]
    ∧ (safeJSONRead 300 "alex" "data.json" "iso"
        ⟨none, some "\x7d\x7b", none, [(100, "\x7b\"a\": 1\x7d")]⟩ ⟨none, 1, []⟩).2.1.target
      = some "\x7b\"a\": 1\x7d" :=
  safeRead_restores_newest_backup 300 "alex" "data.json" "iso" "\x7d\x7b"
    "\x7b\"a\": 1\x7d" 100 [] (Json.obj [("a", Json.num 1)])
    ⟨none, some "\x7d\x7b", none, [(100, "\x7b\"a\": 1\x7d")]⟩ ⟨none, 1, []⟩
    rfl rfl rfl rfl rfl rfl rfl

/-! Backup retention lemmas -/

theorem take_append_take (A B : List (Nat × String)) (n : Nat) :
    (A ++ B.take n).take n = (A ++ B).take n := by
  rw [List.take_append_eq_append_take, List.take_append_eq_append_take,
    List.take_take, Nat.min_eq_left (Nat.sub_le n A.length)]

theorem insertDescBackup_lt (x y : Nat × String) (m : List (Nat × String))
    (h : y.1 < x.1) :
    insertDescBackup y (x :: m) = x :: insertDescBackup y m := by
  show (if x.1 ≤ y.1 then y :: x :: m else x :: insertDescBackup y m)
      = x :: insertDescBackup y m
  rw [if_neg (by omega)]

theorem insertDescBackup_ge_head (y : Nat × String) (m : List (Nat × String))
    (h : ∀ z ∈ m, z.1 ≤ y.1) : insertDescBackup y m = y :: m := by
  cases m with
  | nil => rfl
  | cons z zs =>
    unfold insertDescBackup
    rw [if_pos (h z (List.mem_cons_self z zs))]

theorem foldr_insert_top (x : Nat × String) :
    ∀ l : List (Nat × String), (∀ y ∈ l, y.1 < x.1) →
      List.Pairwise (fun a b => b.1 < a.1) l →
      l.foldr insertDescBackup [x] = x :: l := by
  intro l
  induction l with
  | nil => intro _ _; rfl
  | cons y ys ih =>
    intro hb hs
    rw [List.pairwise_cons] at hs
    have h1 : ys.foldr insertDescBackup [x] = x :: ys :=
      ih (fun z hz => hb z (List.mem_cons_of_mem y hz)) hs.2
    show insertDescBackup y (ys.foldr insertDescBackup [x]) = x :: y :: ys
    rw [h1, insertDescBackup_lt x y ys (hb y (List.mem_cons_self y ys)),
      insertDescBackup_ge_head y ys (fun z hz => Nat.le_of_lt (hs.1 z hz))]

theorem sortNewestFirst_snoc_top (l : List (Nat × String)) (x : Nat × String)
    (hb : ∀ y ∈ l, y.1 < x.1)
    (hs : List.Pairwise (fun a b => b.1 < a.1) l) :
    sortNewestFirst (l ++ [x]) = x :: l := by
  unfold sortNewestFirst
  rw [List.foldr_append]
  exact foldr_insert_top x l hb hs

theorem clean_insert_step (B : List (Nat × String)) (t : Nat) (c : String)
    (hb : ∀ y ∈ B, y.1 < t)
    (hs : List.Pairwise (fun a b => b.1 < a.1) B) :
    cleanOldBackups (insertBackup B t c) = ((t, c) :: B).take 10 := by
  unfold cleanOldBackups insertBackup
  rw [List.filter_eq_self.mpr
    (fun y hy => by simpa using Nat.ne_of_lt (hb y hy)),
    sortNewestFirst_snoc_top B (t, c) hb hs]

theorem runWrites_step (wid : String) (t : Nat) (s : String) (fs : SharedFS)
    (p : ProcSt) (c : String)
    (hlf : fs.lockFile = none) (htg : fs.target = some c) :
    writeOnce wid (fs, p) (t, s)
    = (⟨none, some s, none, cleanOldBackups (insertBackup fs.backups t c)⟩,
       ⟨none, p.nextId + 1, p.scheduled ++ [(maxLockTime, p.nextId)]⟩) := by
  simp [writeOnce, acquireLock, acquireCheck, hlf, atomicWrite, createBackup,
    htg, releaseLock, writeDataString]

theorem expectedBackups_length (c : String) (ws : List (Nat × String)) :
    (expectedBackups c ws).length = ws.length := by
  induction ws generalizing c with
  | nil => rfl
  | cons w rest ih =>
    obtain ⟨t, s⟩ := w
    simp [expectedBackups, ih]

theorem expectedBackups_fst (c : String) (ws : List (Nat × String)) :
    (expectedBackups c ws).map Prod.fst = ws.map Prod.fst := by
  induction ws generalizing c with
  | nil => rfl
  | cons w rest ih =>
    obtain ⟨t, s⟩ := w
    simp [expectedBackups, ih]

theorem runWrites_backups_general (wid : String) :
    ∀ (writes : List (Nat × String)) (fs : SharedFS) (p : ProcSt) (c : String),
      fs.lockFile = none → fs.target = some c →
      List.Pairwise (fun a b => b.1 < a.1) fs.backups →
      fs.backups.length ≤ 10 →
      (∀ b ∈ fs.backups, ∀ w ∈ writes, b.1 < w.1) →
      List.Pairwise (fun a b => a.1 < b.1) writes →
      (runWrites wid writes fs p).1.backups
        = ((expectedBackups c writes).reverse ++ fs.backups).take 10 := by
  intro writes
  induction writes with
  | nil =>
    intro fs p c hlf htg hs hlen hb hw
    simp [runWrites, expectedBackups, List.take_of_length_le hlen]
  | cons w rest ih =>
    obtain ⟨t, s⟩ := w
    intro fs p c hlf htg hs hlen hb hw
    rw [List.pairwise_cons] at hw
    have hbt : ∀ y ∈ fs.backups, y.1 < t :=
      fun y hy => hb y hy (t, s) (List.mem_cons_self _ _)
    have hstep := runWrites_step wid t s fs p c hlf htg
    have hrun : runWrites wid ((t, s) :: rest) fs p
        = runWrites wid rest
            ⟨none, some s, none, cleanOldBackups (insertBackup fs.backups t c)⟩
            ⟨none, p.nextId + 1, p.scheduled ++ [(maxLockTime, p.nextId)]⟩ := by
      unfold runWrites
      rw [List.foldl_cons, hstep]
    have hclean : cleanOldBackups (insertBackup fs.backups t c)
        = ((t, c) :: fs.backups).take 10 := clean_insert_step fs.backups t c hbt hs
    have hcons : List.Pairwise (fun a b => b.1 < a.1) ((t, c) :: fs.backups) := by
      rw [List.pairwise_cons]
      exact ⟨fun b hb2 => hbt b hb2, hs⟩
    have hih := ih
      ⟨none, some s, none, cleanOldBackups (insertBackup fs.backups t c)⟩
      ⟨none, p.nextId + 1, p.scheduled ++ [(maxLockTime, p.nextId)]⟩
      s rfl rfl
      (by
        show List.Pairwise _ (cleanOldBackups (insertBackup fs.backups t c))
        rw [hclean]
        exact hcons.sublist (List.take_sublist _ _))
      (by
        show (cleanOldBackups (insertBackup fs.backups t c)).length ≤ 10
        rw [hclean, List.length_take]
        omega)
      (by
        intro b hb2 w hw2
        show b.1 < w.1
        have hb3 : b ∈ (t, c) :: fs.backups := by
          rw [hclean] at hb2
          exact List.take_subset _ _ hb2
        rcases List.mem_cons.mp hb3 with h | h
        · subst h
          exact hw.1 w hw2
        · exact hb b h w (List.mem_cons_of_mem _ hw2))
      hw.2
    rw [hrun, hih, hclean]
    show _ = ((expectedBackups c ((t, s) :: rest)).reverse ++ fs.backups).take 10
    have hexp : expectedBackups c ((t, s) :: rest)
        = (t, c) :: expectedBackups s rest := rfl
    rw [hexp, List.reverse_cons, List.append_assoc, List.singleton_append,
      take_append_take]

/-- C6: after a run of more than ten sequential writes at strictly
increasing timestamps to an existing document with no prior backups,
exactly 10 backups remain; they are precisely the snapshots of the 10 most
recent writes — each snapshot taken of the bytes the document held just
before that write, hence strictly before the overwrite — sorted
newest-first by timestamp. -/
theorem backups_retention_ten
    (wid : String) (writes : List (Nat × String)) (fs : SharedFS) (p : ProcSt)
    (c : String)
    (hlf : fs.lockFile = none) (htg : fs.target = some c) (hb : fs.backups = [])
    (hw : List.Pairwise (fun a b => a.1 < b.1) writes)
    (hlen : 10 < writes.length) :
    (runWrites wid writes fs p).1.backups
        = (expectedBackups c writes).reverse.take 10
    ∧ (runWrites wid writes fs p).1.backups.length = 10
    ∧ List.Pairwise (fun a b => b.1 < a.1) (runWrites wid writes fs p).1.backups := by
  have hgen := runWrites_backups_general wid writes fs p c hlf htg
    (by rw [hb]; exact List.Pairwise.nil)
    (by rw [hb]; simp)
    (by rw [hb]; simp)
    hw
  rw [hb, List.append_nil] at hgen
  have hasc : List.Pairwise (fun a b => a.1 < b.1) (expectedBackups c writes) := by
    have h1 : List.Pairwise (fun a b : Nat => a < b) (writes.map Prod.fst) :=
      List.pairwise_map.mpr hw
    rw [← expectedBackups_fst c writes] at h1
    exact List.pairwise_map.mp h1
  have hdesc : List.Pairwise (fun a b => b.1 < a.1)
      (expectedBackups c writes).reverse :=
    List.pairwise_reverse.mpr hasc
  refine ⟨hgen, ?_, ?_⟩
  · rw [hgen, List.length_take, List.length_reverse, expectedBackups_length]
    omega
  · rw [hgen]
    exact hdesc.sublist (List.take_sublist _ _)

theorem backups_retention_ten_witness :
    ((runWrites "w"
        [(1, "v1"), (2, "v2"), (3, "v3"), (4, "v4"), (5, "v5"), (6, "v6"),
         (7, "v7"), (8, "v8"), (9, "v9"), (10, "v10"), (11, "v11")]
        ⟨none, some "v0", none, []⟩ ⟨none, 1, []⟩).1.backups
      = (expectedBackups "v0"
          [(1, "v1"), (2, "v2"), (3, "v3"), (4, "v4"), (5, "v5"), (6, "v6"),
           (7, "v7"), (8, "v8"), (9, "v9"), (10, "v10"), (11, "v11")]).reverse.take 10)
    ∧ ((runWrites "w"
        [(1, "v1"), (2, "v2"), (3, "v3"), (4, "v4"), (5, "v5"), (6, "v6"),
         (7, "v7"), (8, "v8"), (9, "v9"), (10, "v10"), (11, "v11")]
        ⟨none, some "v0", none, []⟩ ⟨none, 1, []⟩).1.backups.length = 10)
    ∧ List.Pairwise (fun a b => b.1 < a.1)
        (runWrites "w"
          [(1, "v1"), (2, "v2"), (3, "v3"), (4, "v4"), (5, "v5"), (6, "v6"),
           (7, "v7"), (8, "v8"), (9, "v9"), (10, "v10"), (11, "v11")]
          ⟨none, some "v0", none, []⟩ ⟨none, 1, []⟩).1.backups :=
  backups_retention_ten "w"
    [(1, "v1"), (2, "v2"), (3, "v3"), (4, "v4"), (5, "v5"), (6, "v6"),
     (7, "v7"), (8, "v8"), (9, "v9"), (10, "v10"), (11, "v11")]
    ⟨none, some "v0", none, []⟩ ⟨none, 1, []⟩ "v0" rfl rfl rfl
    (by decide) (by decide)

end AiMgr
